import Mathlib

/-!
# Verification of the JIO_TV EPG generator

Shallow embedding of `generate_epg.py` (the threaded fetch-with-retry
variant, the one the specification documents): the M3U source loader
`parse_m3u`, the retrying fetcher `fetch_epg`, and the XMLTV document
builder of `main`.

Modelling conventions:
  * the file system is a `Bool` (does the playlist exist) plus the list of
    its lines;
  * the network is an oracle `String → Nat → Nat → Response` giving, for a
    channel id, a day offset and a (1-based) attempt number, the outcome of
    that HTTP request: a transport-level exception, or a status code
    together with the JSON-parse result of the body (`none` models a body
    `r.json()` rejects, which the code's `except` clause turns into the
    exception path);
  * thread completion order (`as_completed`) is an explicit `order` list of
    tasks;
  * `time.sleep` is recorded, not performed: the fetcher's result carries
    the list of delays it would have slept;
  * `datetime.fromtimestamp` runs in the target locale the code assumes,
    the fixed UTC+05:30 offset that its `strftime("%Y%m%d%H%M%S +0530")`
    hard-codes; the civil-calendar conversion is the standard proleptic
    Gregorian one.
-/

namespace JioTV

/-- A channel record produced by the source loader (`parse_m3u`). -/
structure Channel where
  id : String
  name : String
  logo : String
deriving DecidableEq, Repr

/-- One schedule entry of a fetched payload.  `none` in an epoch field
models a `startEpoch`/`endEpoch` key that is missing or whose value makes
`fromtimestamp(p[k] / 1000)` raise; `none` in a text field models a missing
key.  `channelMention` is a field the remote payload may carry but that the
builder never reads. -/
structure EpgEntry where
  startEpoch : Option Int
  endEpoch : Option Int
  showname : Option String
  description : Option String
  genre : Option String
  episodePoster : Option String
  channelMention : Option String
deriving DecidableEq, Repr

/-- The JSON payload of a 200 response.  `epg = none` models a document
without an `"epg"` key (`"epg" not in data`). -/
structure EpgPayload where
  epg : Option (List EpgEntry)
deriving DecidableEq, Repr

/-- Outcome of one HTTP request: a transport-level exception, or a status
code with the JSON-parse result of the body. -/
inductive Response where
  | exc : Response
  | http : Nat → Option EpgPayload → Response
deriving DecidableEq, Repr

/-- What `fetch_epg` returns: the `(channel_id, offset, data)` triple of the
Python code, plus two instrumentation fields, the number of requests issued
and the sleeps `time.sleep(RETRY_DELAY * attempt)` taken between attempts. -/
structure FetchReturn where
  channel_id : String
  offset : Nat
  data : Option EpgPayload
  attempts : Nat
  delays : List Nat
deriving DecidableEq, Repr

/-- `MAX_RETRIES = 3` of the configuration block. -/
def MAX_RETRIES : Nat := 3

/-- `RETRY_DELAY = 3` of the configuration block. -/
def RETRY_DELAY : Nat := 3

/-- `SHOW_IMAGE_BASE` of the configuration block. -/
def SHOW_IMAGE_BASE : String := "https://jiotvimages.cdn.jio.com/dare_images/shows/"

/-- `r.status_code in (429, 450, 500, 502, 503)`: the statuses the fetch
loop retries. -/
def retryable (code : Nat) : Bool :=
  code == 429 || code == 450 || code == 500 || code == 502 || code == 503

/-- `r.status_code in (404, 403)`: the statuses treated as a permanent
skip. -/
def skipCode (code : Nat) : Bool :=
  code == 404 || code == 403

/-- Record one `time.sleep(d)` in front of the rest of a fetch run. -/
def withDelay (d : Nat) (r : FetchReturn) : FetchReturn :=
  ⟨r.channel_id, r.offset, r.data, r.attempts, d :: r.delays⟩

/-- The `for attempt in range(1, MAX_RETRIES + 1)` loop of `fetch_epg`.
`fuel` is the number of loop iterations still available; every branch of
the Python body either returns or continues, so starting from
`fuel = MAX_RETRIES`, `attempt = 1` the out-of-fuel base case is never
reached. -/
def fetchLoop (cid : String) (off : Nat) (resp : Nat → Response) :
    Nat → Nat → FetchReturn
  | attempt, 0 => ⟨cid, off, none, attempt - 1, []⟩
  | attempt, fuel + 1 =>
    match resp attempt with
    | Response.exc =>
      if attempt < MAX_RETRIES then
        withDelay (RETRY_DELAY * attempt) (fetchLoop cid off resp (attempt + 1) fuel)
      else ⟨cid, off, none, attempt, []⟩
    | Response.http code body =>
      if code = 200 then
        match body with
        | some payload => ⟨cid, off, some payload, attempt, []⟩
        | none =>
          -- `r.json()` raised inside the `try`, so the `except` path runs
          if attempt < MAX_RETRIES then
            withDelay (RETRY_DELAY * attempt) (fetchLoop cid off resp (attempt + 1) fuel)
          else ⟨cid, off, none, attempt, []⟩
      else if skipCode code then ⟨cid, off, none, attempt, []⟩
      else if retryable code then
        if attempt < MAX_RETRIES then
          withDelay (RETRY_DELAY * attempt) (fetchLoop cid off resp (attempt + 1) fuel)
        else ⟨cid, off, none, attempt, []⟩
      else ⟨cid, off, none, attempt, []⟩

/-- `fetch_epg(channel_id, offset, ...)` of `generate_epg.py` (the progress
arguments `idx`, `total` only feed the log line and are omitted). -/
def fetch_epg (cid : String) (off : Nat) (resp : Nat → Response) : FetchReturn :=
  fetchLoop cid off resp 1 MAX_RETRIES

/-- Does `pat` occur at the very start of the character list? -/
def listStartsWith : List Char → List Char → Bool
  | [], _ => true
  | _ :: _, [] => false
  | p :: ps, c :: cs => p == c && listStartsWith ps cs

/-- The whitespace set of Python's `str.strip()` (its ASCII part). -/
def isSpace (c : Char) : Bool :=
  c == ' ' || c == '\t' || c == '\n' || c == '\r' || c == '\x0b' || c == '\x0c'

/-- `s.strip()` on a character list. -/
def stripChars (l : List Char) : List Char :=
  ((l.dropWhile isSpace).reverse.dropWhile isSpace).reverse

/-- `s.strip()`. -/
def pyStrip (s : String) : String :=
  String.mk (stripChars s.data)

/-- At a position where the literal part of the pattern already matched,
the regex tail `([^"]+)"` : a nonempty run of non-quote characters followed
by a closing quote. -/
def quotedAt (after : List Char) : Option (List Char) :=
  if (after.takeWhile (fun ch => ch != '"')).isEmpty then none
  else if (after.drop (after.takeWhile (fun ch => ch != '"')).length).isEmpty then none
  else some (after.takeWhile (fun ch => ch != '"'))

/-- `re.search(pat ++ '([^"]+)"', line)`: scan positions left to right and
return the first captured group. -/
def searchQuoted (pat : List Char) : List Char → Option (List Char)
  | [] => none
  | c :: cs =>
    if listStartsWith pat (c :: cs) then
      match quotedAt ((c :: cs).drop pat.length) with
      | some run => some run
      | none => searchQuoted pat cs
    else searchQuoted pat cs

/-- The literal part of `r'tvg-id="([^"]+)"'`. -/
def idPat : List Char := "tvg-id=\"".data

/-- The literal part of `r'tvg-logo="([^"]+)"'`. -/
def logoPat : List Char := "tvg-logo=\"".data

/-- `line.split(",", 1)[1]`: everything after the first comma, when the
line has one. -/
def afterFirstComma : List Char → Option (List Char)
  | [] => none
  | c :: cs => if c = ',' then some cs else afterFirstComma cs

/-- The body of the `for line in lines` loop of `parse_m3u`: the channel
record a single line contributes, if any. -/
def chanOfLine (rawLine : String) : Option Channel :=
  let line := stripChars rawLine.data
  if listStartsWith "#EXTINF".data line then
    match searchQuoted idPat line with
    | none => none
    | some idv =>
      let logo := match searchQuoted logoPat line with
        | some lv => pyStrip (String.mk lv)
        | none => ""
      let name := match afterFirstComma line with
        | some t => pyStrip (String.mk t)
        | none => "Unknown"
      some ⟨pyStrip (String.mk idv), name, logo⟩
  else none

/-- `parse_m3u(path)`: `fileExists` models `os.path.exists(path)` and
`lines` the lines of the file. -/
def parse_m3u (fileExists : Bool) (lines : List String) : List Channel :=
  if fileExists then lines.filterMap chanOfLine else []

/-- Python floor division `//` on integers. -/
def pyDiv (a b : Int) : Int := Int.fdiv a b

/-- Python `%` on integers (result in `[0, b)` for `b > 0`). -/
def pyMod (a b : Int) : Int := Int.emod a b

/-- Days-to-civil-date conversion of the proleptic Gregorian calendar, as
`datetime.fromtimestamp` performs it. -/
def civilFromDays (z0 : Int) : Int × Int × Int :=
  let z := z0 + 719468
  let era := pyDiv z 146097
  let doe := z - era * 146097
  let yoe := pyDiv (doe - pyDiv doe 1460 + pyDiv doe 36524 - pyDiv doe 146096) 365
  let y := yoe + era * 400
  let doy := doe - (365 * yoe + pyDiv yoe 4 - pyDiv yoe 100)
  let mp := pyDiv (5 * doy + 2) 153
  let d := doy - pyDiv (153 * mp + 2) 5 + 1
  let m := mp + (if mp < 10 then 3 else -9)
  (if m ≤ 2 then y + 1 else y, m, d)

/-- Zero-padded decimal rendering, as the `strftime` field formats do. -/
def pad (w : Nat) (n : Int) : String :=
  let s := toString n.toNat
  String.mk (List.replicate (w - s.length) '0') ++ s

/-- `datetime.fromtimestamp(ms / 1000).strftime("%Y%m%d%H%M%S +0530")` in
the UTC+05:30 locale the code assumes. -/
def formatEpochMs (ms : Int) : String :=
  let total := pyDiv ms 1000 + 19800
  let days := pyDiv total 86400
  let secs := pyMod total 86400
  let ymd := civilFromDays days
  pad 4 ymd.1 ++ pad 2 ymd.2.1 ++ pad 2 ymd.2.2 ++
    pad 2 (pyDiv secs 3600) ++ pad 2 (pyMod (pyDiv secs 60) 60) ++
    pad 2 (pyMod secs 60) ++ " +0530"

/-- One `programme` element of the output document. -/
structure Programme where
  start : String
  stop : String
  channel : String
  title : String
  desc : String
  category : Option String
  icon : Option String
deriving DecidableEq, Repr

/-- The `programme` element the builder emits for an entry whose two epoch
fields parsed to `s` and `e`. -/
def mkProgramme (cid : String) (p : EpgEntry) (s e : Int) : Programme where
  start := formatEpochMs s
  stop := formatEpochMs e
  channel := cid
  title := pyStrip (p.showname.getD "Unknown")
  desc := pyStrip (p.description.getD "")
  category := p.genre.map pyStrip
  icon :=
    match p.episodePoster with
    | some po => if po = "" then none else some (SHOW_IMAGE_BASE ++ po)
    | none => none

/-- The body of the `for p in data.get("epg", [])` loop: `none` when the
`try` around the two `fromtimestamp` calls raises and the entry is
dropped. -/
def progOfEntry (cid : String) (p : EpgEntry) : Option Programme :=
  match p.startEpoch, p.endEpoch with
  | some s, some e => some (mkProgramme cid p s e)
  | _, _ => none

/-- Stage 3 of `main` for one collected `(cid, data)` pair. -/
def buildProgrammes (cid : String) (entries : List EpgEntry) : List Programme :=
  entries.filterMap (progOfEntry cid)

/-- A child of the `<tv>` root: a channel element or a programme element. -/
inductive XmlNode where
  | channelEl : Channel → XmlNode
  | programmeEl : Programme → XmlNode
deriving DecidableEq, Repr

/-- `offsets = list(range(0, 4))`. -/
def offsets : List Nat := [0, 1, 2, 3]

/-- The tasks `main` submits: `for offset in offsets: for ch in channels`. -/
def tasks (channels : List Channel) : List (String × Nat) :=
  (offsets.map (fun off => channels.map (fun ch => (ch.id, off)))).flatten

/-- The result-collection body of `main`'s `as_completed` loop for one
finished task: the `(cid, data)` pair appended to `results`, or `none` when
`not data or "epg" not in data` filters it out. -/
def taskResult (R : String → Nat → Nat → Response) (t : String × Nat) :
    Option (String × List EpgEntry) :=
  match (fetch_epg t.1 t.2 (R t.1 t.2)).data with
  | none => none
  | some payload =>
    match payload.epg with
    | none => none
    | some entries => some (t.1, entries)

/-- The programme nodes stage 3 appends, given the completion order of the
tasks. -/
def progNodes (R : String → Nat → Nat → Response) (order : List (String × Nat)) :
    List XmlNode :=
  ((order.filterMap (taskResult R)).map
    (fun r => (buildProgrammes r.1 r.2).map XmlNode.programmeEl)).flatten

/-- `main()`: `none` models the early `return` before any output is written
(`if not channels`); `some doc` models the run writing the serialized
children of `<tv>` to the output file.  `order` is the completion order in
which `as_completed` yields the submitted tasks. -/
def runMain (fileExists : Bool) (lines : List String)
    (R : String → Nat → Nat → Response) (order : List (String × Nat)) :
    Option (List XmlNode) :=
  let channels := parse_m3u fileExists lines
  if channels.isEmpty then none
  else some (channels.map XmlNode.channelEl ++ progNodes R order)

/-- A response outcome the retry loop treats as transient: a transport-level
exception or one of the retried statuses. -/
def Transient (r : Response) : Prop :=
  r = Response.exc ∨ ∃ c b, r = Response.http c b ∧ retryable c = true

/-- The declarative reading of the attribute regex: `s` decomposes around an
occurrence of `pat` followed by a nonempty quote-free value closed by `"`. -/
def HasQuotedVal (pat s : List Char) : Prop :=
  ∃ a v b, s = a ++ pat ++ (v ++ '"' :: b) ∧ v ≠ [] ∧ '"' ∉ v

/-- A playlist line that carries a channel identifier: an entry line (its
stripped form begins with `#EXTINF`) with a `tvg-id="…"` attribute. -/
def ContainsIdentifier (line : String) : Prop :=
  listStartsWith "#EXTINF".data (stripChars line.data) = true ∧
  HasQuotedVal idPat (stripChars line.data)

/-- The display-name extraction as the specification words it — the
(stripped) text following the LAST comma of the stripped line: the maximal
comma-free suffix, obtained as the reversal of the run of non-comma
characters at the head of the reversed line; this is also what the
workflow variant's greedy regex `.*,(.*)` captures.  `Unknown` when the
line has no comma. -/
def nameAfterLastComma (line : String) : String :=
  if ',' ∈ stripChars line.data then
    pyStrip (String.mk
      (((stripChars line.data).reverse.takeWhile (fun c => c != ',')).reverse))
  else "Unknown"

/-- A concrete playlist entry line used to instantiate theorems. -/
def wLine : String := "#EXTINF:-1 tvg-id=\"101\",Test Channel"

/-- A playlist entry line whose display-name text itself contains a comma. -/
def wLine4 : String := "#EXTINF:-1 tvg-id=\"1\",Hello, World"

/-- The channel `wLine` parses to. -/
def wChannel : Channel := ⟨"101", "Test Channel", ""⟩

/-- A concrete schedule entry with valid epoch fields. -/
def wEntry : EpgEntry :=
  ⟨some 1700000000000, some 1700001800000, some "Test Show", none, none, none, none⟩

/-- A concrete 200 payload carrying `wEntry`. -/
def wPayload : EpgPayload := ⟨some [wEntry]⟩

/-- An oracle answering every request with `200` and `wPayload`. -/
def wR : String → Nat → Nat → Response := fun _ _ _ => Response.http 200 (some wPayload)

/-- An oracle where every request fails at transport level. -/
def wRexc : String → Nat → Nat → Response := fun _ _ _ => Response.exc

/-- A concrete completion order: the first task only. -/
def wOrder : List (String × Nat) := [("101", 0)]

/-- The document of the run over `wLine` with oracle `wR`. -/
def wOut : List XmlNode := (runMain true [wLine] wR wOrder).getD []

/-- The document of the run over `wLine` with the all-failing oracle. -/
def wOut2 : List XmlNode := (runMain true [wLine] wRexc []).getD []

/-- The programme element the run over `wLine`/`wR` emits. -/
def wProg : Programme := mkProgramme "101" wEntry 1700000000000 1700001800000

/-! ## Helper lemmas about the fetch loop -/

theorem retryable_cases (c : Nat) (h : retryable c = true) :
    c = 429 ∨ c = 450 ∨ c = 500 ∨ c = 502 ∨ c = 503 := by
  simp only [retryable, Bool.or_eq_true, beq_iff_eq] at h
  tauto

theorem retryable_facts (c : Nat) (h : retryable c = true) :
    c ≠ 200 ∧ skipCode c = false := by
  rcases retryable_cases c h with h | h | h | h | h <;> subst h <;>
    exact ⟨by decide, by decide⟩

theorem fetchLoop_fields (cid : String) (off : Nat) (resp : Nat → Response) :
    ∀ fuel attempt,
      (fetchLoop cid off resp attempt fuel).channel_id = cid ∧
      (fetchLoop cid off resp attempt fuel).offset = off ∧
      (fetchLoop cid off resp attempt fuel).attempts ≤ attempt - 1 + fuel := by
  intro fuel
  induction fuel with
  | zero =>
    intro attempt
    exact ⟨rfl, rfl, by show attempt - 1 ≤ attempt - 1 + 0; omega⟩
  | succ fuel ih =>
    intro attempt
    obtain ⟨ihc, iho, iha⟩ := ih (attempt + 1)
    have hRet : (⟨cid, off, none, attempt, []⟩ : FetchReturn).channel_id = cid ∧
        (⟨cid, off, none, attempt, []⟩ : FetchReturn).offset = off ∧
        (⟨cid, off, none, attempt, []⟩ : FetchReturn).attempts ≤
          attempt - 1 + (fuel + 1) :=
      ⟨rfl, rfl, by show attempt ≤ attempt - 1 + (fuel + 1); omega⟩
    have hUp :
        (withDelay (RETRY_DELAY * attempt)
          (fetchLoop cid off resp (attempt + 1) fuel)).channel_id = cid ∧
        (withDelay (RETRY_DELAY * attempt)
          (fetchLoop cid off resp (attempt + 1) fuel)).offset = off ∧
        (withDelay (RETRY_DELAY * attempt)
          (fetchLoop cid off resp (attempt + 1) fuel)).attempts ≤
          attempt - 1 + (fuel + 1) :=
      ⟨ihc, iho, by
        show (fetchLoop cid off resp (attempt + 1) fuel).attempts ≤
          attempt - 1 + (fuel + 1)
        omega⟩
    unfold fetchLoop
    cases hr : resp attempt with
    | exc =>
      by_cases hlt : attempt < MAX_RETRIES
      · simpa [hlt] using hUp
      · simpa [hlt] using hRet
    | http code body =>
      by_cases h200 : code = 200
      · cases body with
        | some payload =>
          have hOk : (⟨cid, off, some payload, attempt, []⟩ : FetchReturn).channel_id = cid ∧
              (⟨cid, off, some payload, attempt, []⟩ : FetchReturn).offset = off ∧
              (⟨cid, off, some payload, attempt, []⟩ : FetchReturn).attempts ≤
                attempt - 1 + (fuel + 1) :=
            ⟨rfl, rfl, by show attempt ≤ attempt - 1 + (fuel + 1); omega⟩
          simpa [h200] using hOk
        | none =>
          by_cases hlt : attempt < MAX_RETRIES
          · simpa [h200, hlt] using hUp
          · simpa [h200, hlt] using hRet
      · by_cases hskip : skipCode code
        · simpa [h200, hskip] using hRet
        · by_cases hretry : retryable code
          · by_cases hlt : attempt < MAX_RETRIES
            · simpa [h200, hskip, hretry, hlt] using hUp
            · simpa [h200, hskip, hretry, hlt] using hRet
          · simpa [h200, hskip, hretry] using hRet

theorem fetchStep_transient (cid : String) (off : Nat) (resp : Nat → Response)
    (attempt fuel : Nat) (h : Transient (resp attempt)) (hlt : attempt < MAX_RETRIES) :
    fetchLoop cid off resp attempt (fuel + 1) =
      withDelay (RETRY_DELAY * attempt) (fetchLoop cid off resp (attempt + 1) fuel) := by
  rcases h with h | ⟨c, b, h, hc⟩
  · simp [fetchLoop, h, hlt]
  · obtain ⟨h200, hskip⟩ := retryable_facts c hc
    simp [fetchLoop, h, hlt, h200, hskip, hc]

theorem fetchStep_transient_last (cid : String) (off : Nat) (resp : Nat → Response)
    (attempt fuel : Nat) (h : Transient (resp attempt)) (hge : ¬ attempt < MAX_RETRIES) :
    fetchLoop cid off resp attempt (fuel + 1) = ⟨cid, off, none, attempt, []⟩ := by
  rcases h with h | ⟨c, b, h, hc⟩
  · simp [fetchLoop, h, hge]
  · obtain ⟨h200, hskip⟩ := retryable_facts c hc
    simp [fetchLoop, h, hge, h200, hskip, hc]

theorem fetchStep_other (cid : String) (off : Nat) (resp : Nat → Response)
    (attempt fuel c : Nat) (b : Option EpgPayload) (h : resp attempt = Response.http c b)
    (h200 : c ≠ 200) (hskip : skipCode c = false) (hretry : retryable c = false) :
    fetchLoop cid off resp attempt (fuel + 1) = ⟨cid, off, none, attempt, []⟩ := by
  simp [fetchLoop, h, h200, hskip, hretry]

theorem fetchStep_skip (cid : String) (off : Nat) (resp : Nat → Response)
    (attempt fuel c : Nat) (b : Option EpgPayload) (h : resp attempt = Response.http c b)
    (hskip : skipCode c = true) :
    fetchLoop cid off resp attempt (fuel + 1) = ⟨cid, off, none, attempt, []⟩ := by
  have h200 : c ≠ 200 := by
    simp only [skipCode, Bool.or_eq_true, beq_iff_eq] at hskip
    omega
  simp [fetchLoop, h, h200, hskip]

theorem fetch_transient_all (cid : String) (off : Nat) (resp : Nat → Response)
    (h : ∀ n, Transient (resp n)) :
    fetch_epg cid off resp =
      ⟨cid, off, none, MAX_RETRIES, [RETRY_DELAY * 1, RETRY_DELAY * 2]⟩ := by
  have s3 : fetchLoop cid off resp 3 1 = ⟨cid, off, none, 3, []⟩ :=
    fetchStep_transient_last cid off resp 3 0 (h 3) (by decide)
  have s2 : fetchLoop cid off resp 2 2 =
      withDelay (RETRY_DELAY * 2) (fetchLoop cid off resp 3 1) :=
    fetchStep_transient cid off resp 2 1 (h 2) (by decide)
  have s1 : fetchLoop cid off resp 1 3 =
      withDelay (RETRY_DELAY * 1) (fetchLoop cid off resp 2 2) :=
    fetchStep_transient cid off resp 1 2 (h 1) (by decide)
  show fetchLoop cid off resp 1 3 = _
  rw [s1, s2, s3]
  rfl

/-! ## Claims about the fetcher -/

/-- C9: for every input and every sequence of responses, `fetch_epg` is a
total function (the embedding needs no fuel beyond `MAX_RETRIES` and no
exception escapes the loop), it issues at most `MAX_RETRIES` requests, and
the first two components of the returned triple are exactly the
`channel_id` and `offset` arguments. -/
theorem C9_fetch_total (cid : String) (off : Nat) (resp : Nat → Response) :
    (fetch_epg cid off resp).channel_id = cid ∧
    (fetch_epg cid off resp).offset = off ∧
    (fetch_epg cid off resp).attempts ≤ MAX_RETRIES := by
  have h := fetchLoop_fields cid off resp MAX_RETRIES 1
  refine ⟨h.1, h.2.1, ?_⟩
  show (fetchLoop cid off resp 1 MAX_RETRIES).attempts ≤ MAX_RETRIES
  have := h.2.2
  omega

/-- C1, corrected: the fetcher retries (sleeping `RETRY_DELAY * attempt`
between attempts) exactly on a transport-level failure or a status in
{429, 450, 500, 502, 503}, giving up with no data after `MAX_RETRIES`
attempts; on any other non-200, non-404/403 status — including the other
5xx codes such as 501 — it fails immediately after a single attempt. -/
theorem C1_retry_policy (cid : String) (off : Nat) (resp : Nat → Response) :
    ((∀ n, Transient (resp n)) →
      fetch_epg cid off resp =
        ⟨cid, off, none, MAX_RETRIES, [RETRY_DELAY * 1, RETRY_DELAY * 2]⟩) ∧
    (∀ c b, resp 1 = Response.http c b → c ≠ 200 → skipCode c = false →
      retryable c = false → fetch_epg cid off resp = ⟨cid, off, none, 1, []⟩) := by
  constructor
  · exact fetch_transient_all cid off resp
  · intro c b h1 h200 hskip hretry
    show fetchLoop cid off resp 1 (2 + 1) = _
    exact fetchStep_other cid off resp 1 2 c b h1 h200 hskip hretry

/-- C1, witness: a task answered `500` on every attempt is retried to the
maximum of 3 attempts, sleeping 3 then 6 seconds, and returns no data. -/
theorem C1_retry_policy_witness :
    fetch_epg "100" 0 (fun _ => Response.http 500 none) =
      ⟨"100", 0, none, MAX_RETRIES, [RETRY_DELAY * 1, RETRY_DELAY * 2]⟩ :=
  (C1_retry_policy "100" 0 (fun _ => Response.http 500 none)).1
    (fun _ => Or.inr ⟨500, none, rfl, rfl⟩)

/-- C1, counterexample: HTTP 501 is a 5xx status, yet the fetcher makes a
single attempt, sleeps nothing, and gives up — the claim's "retries on any
5xx" does not hold of the code, which retries only 429/450/500/502/503. -/
theorem C1_counterexample :
    500 ≤ 501 ∧ 501 < 600 ∧
    fetch_epg "100" 0 (fun _ => Response.http 501 none) = ⟨"100", 0, none, 1, []⟩ ∧
    (fetch_epg "100" 0 (fun _ => Response.http 501 none)).attempts ≠ MAX_RETRIES := by
  refine ⟨by decide, by decide, by decide, by decide⟩

/-- C3: a first response of 404 or 403 ends the task at once — one request,
no retry, no data — and the result-collection step of `main` keeps nothing
of it, so the task contributes zero programme elements. -/
theorem C3_skip_no_retry (cid : String) (off : Nat)
    (R : String → Nat → Nat → Response) (b : Option EpgPayload)
    (h : R cid off 1 = Response.http 404 b ∨ R cid off 1 = Response.http 403 b) :
    fetch_epg cid off (R cid off) = ⟨cid, off, none, 1, []⟩ ∧
    taskResult R (cid, off) = none := by
  have hf : fetch_epg cid off (R cid off) = ⟨cid, off, none, 1, []⟩ := by
    show fetchLoop cid off (R cid off) 1 (2 + 1) = _
    rcases h with h | h
    · exact fetchStep_skip cid off (R cid off) 1 2 404 b h (by decide)
    · exact fetchStep_skip cid off (R cid off) 1 2 403 b h (by decide)
  refine ⟨hf, ?_⟩
  simp [taskResult, hf]

/-- C3, witness: the skip behaviour at a concrete 404 task. -/
theorem C3_skip_no_retry_witness :
    fetch_epg "101" 0 ((fun _ _ _ => Response.http 404 none) "101" 0) =
      ⟨"101", 0, none, 1, []⟩ ∧
    taskResult (fun _ _ _ => Response.http 404 none) ("101", 0) = none :=
  C3_skip_no_retry "101" 0 (fun _ _ _ => Response.http 404 none) none (Or.inl rfl)

/-! ## Helper lemmas about the playlist parser -/

theorem listStartsWith_iff (p : List Char) : ∀ s : List Char,
    listStartsWith p s = true ↔ ∃ t, s = p ++ t := by
  induction p with
  | nil => intro s; simp [listStartsWith]
  | cons x xs ih =>
    intro s
    cases s with
    | nil => simp [listStartsWith]
    | cons c cs =>
      simp only [listStartsWith, Bool.and_eq_true, beq_iff_eq, ih, List.cons_append,
        List.cons.injEq]
      constructor
      · rintro ⟨rfl, t, rfl⟩
        exact ⟨t, rfl, rfl⟩
      · rintro ⟨t, rfl, rfl⟩
        exact ⟨rfl, t, rfl⟩

theorem dropWhile_head_not {p : Char → Bool} : ∀ (l : List Char) (c : Char) (cs : List Char),
    l.dropWhile p = c :: cs → p c = false := by
  intro l
  induction l with
  | nil => intro c cs h; simp [List.dropWhile] at h
  | cons x xs ih =>
    intro c cs h
    rw [List.dropWhile_cons] at h
    by_cases hx : p x = true
    · rw [if_pos hx] at h
      exact ih c cs h
    · rw [if_neg hx] at h
      injection h with h1 h2
      subst h1
      simpa using hx

theorem takeWhile_eq_left {p : Char → Bool} (y : Char) (ys : List Char) (hy : p y = false) :
    ∀ xs : List Char, (∀ x ∈ xs, p x = true) → (xs ++ y :: ys).takeWhile p = xs := by
  intro xs
  induction xs with
  | nil => intro _; simp [List.takeWhile_cons, hy]
  | cons a as ih =>
    intro hxs
    have ha : p a = true := hxs a (List.mem_cons_self a as)
    simp only [List.cons_append, List.takeWhile_cons, ha, if_true, List.cons.injEq,
      true_and]
    exact ih (fun x hx => hxs x (List.mem_cons_of_mem a hx))

theorem drop_takeWhile_length {p : Char → Bool} : ∀ l : List Char,
    l.drop (l.takeWhile p).length = l.dropWhile p := by
  intro l
  induction l with
  | nil => rfl
  | cons a as ih =>
    by_cases ha : p a = true
    · simp [List.takeWhile_cons, List.dropWhile_cons, ha, ih]
    · simp [List.takeWhile_cons, List.dropWhile_cons, ha]

theorem quotedAt_eq_some_iff (after run : List Char) :
    quotedAt after = some run ↔ ∃ b, after = run ++ '"' :: b ∧ run ≠ [] ∧ '"' ∉ run := by
  unfold quotedAt
  constructor
  · intro h
    split at h
    · simp at h
    · split at h
      · simp at h
      · rename_i h1 h2
        injection h with h
        subst h
        have hdw : after.drop (after.takeWhile (fun ch => ch != '"')).length =
            after.dropWhile (fun ch => ch != '"') := drop_takeWhile_length after
        obtain ⟨c, b, hcb⟩ : ∃ c b, after.dropWhile (fun ch => ch != '"') = c :: b := by
          rcases hda : after.dropWhile (fun ch => ch != '"') with - | ⟨c, b⟩
          · rw [hdw, hda] at h2
            simp at h2
          · exact ⟨c, b, rfl⟩
        have hc : c = '"' := by
          have hh := dropWhile_head_not _ c b hcb
          simpa using hh
        refine ⟨b, ?_, ?_, ?_⟩
        · conv_lhs => rw [← List.takeWhile_append_dropWhile (fun ch => ch != '"') after]
          rw [hcb, hc]
        · intro hnil
          rw [hnil] at h1
          simp at h1
        · intro hmem
          have hh := List.mem_takeWhile_imp hmem
          simp at hh
  · rintro ⟨b, rfl, hne, hnotmem⟩
    have htw : ((run ++ '"' :: b).takeWhile (fun ch => ch != '"')) = run :=
      takeWhile_eq_left '"' b (by simp) run (fun x hx => by
        simp only [bne_iff_ne, ne_eq]
        exact fun hxq => hnotmem (hxq ▸ hx))
    rw [htw, List.drop_left]
    simp [List.isEmpty_iff, hne]

theorem searchQuoted_some_decomp (pat : List Char) : ∀ (s run : List Char),
    searchQuoted pat s = some run →
    ∃ a b, s = a ++ pat ++ (run ++ '"' :: b) ∧ run ≠ [] ∧ '"' ∉ run := by
  intro s
  induction s with
  | nil => intro run h; simp [searchQuoted] at h
  | cons c cs ih =>
    intro run h
    rw [searchQuoted] at h
    by_cases hP : listStartsWith pat (c :: cs) = true
    · rw [if_pos hP] at h
      cases hq : quotedAt ((c :: cs).drop pat.length) with
      | some r =>
        rw [hq] at h
        injection h with h
        subst h
        obtain ⟨t, ht⟩ := (listStartsWith_iff pat (c :: cs)).mp hP
        obtain ⟨b, hb, hne, hmem⟩ := (quotedAt_eq_some_iff _ _).mp hq
        have hdt : (c :: cs).drop pat.length = t := by
          rw [ht, List.drop_left]
        have ht2 : t = r ++ '"' :: b := hdt.symm.trans hb
        refine ⟨[], b, ?_, hne, hmem⟩
        rw [ht, ht2]
        simp
      | none =>
        rw [hq] at h
        obtain ⟨a, b, hab, hne, hmem⟩ := ih run h
        exact ⟨c :: a, b, by rw [List.cons_append, List.cons_append, hab], hne, hmem⟩
    · rw [if_neg hP] at h
      obtain ⟨a, b, hab, hne, hmem⟩ := ih run h
      exact ⟨c :: a, b, by rw [List.cons_append, List.cons_append, hab], hne, hmem⟩

theorem searchQuoted_isSome_of (pat v : List Char) (hv : v ≠ []) (hq : '"' ∉ v) :
    ∀ a b : List Char, (searchQuoted pat (a ++ pat ++ (v ++ '"' :: b))).isSome = true := by
  intro a
  induction a with
  | nil =>
    intro b
    have hs : ([] : List Char) ++ pat ++ (v ++ '"' :: b) = pat ++ (v ++ '"' :: b) := by
      simp
    rw [hs]
    have hP : listStartsWith pat (pat ++ (v ++ '"' :: b)) = true :=
      (listStartsWith_iff pat _).mpr ⟨v ++ '"' :: b, rfl⟩
    have hq2 : quotedAt ((pat ++ (v ++ '"' :: b)).drop pat.length) = some v := by
      rw [List.drop_left]
      exact (quotedAt_eq_some_iff _ _).mpr ⟨b, rfl, hv, hq⟩
    rcases hcons : pat ++ (v ++ '"' :: b) with - | ⟨c, cs⟩
    · exfalso
      rcases List.append_eq_nil.mp hcons with ⟨-, h2⟩
      rcases List.append_eq_nil.mp h2 with ⟨hv0, -⟩
      exact hv hv0
    · rw [hcons] at hP hq2
      rw [searchQuoted, if_pos hP, hq2]
      rfl
  | cons c as ih =>
    intro b
    have hs : (c :: as) ++ pat ++ (v ++ '"' :: b) =
        c :: (as ++ pat ++ (v ++ '"' :: b)) := by simp
    rw [hs, searchQuoted]
    by_cases hP : listStartsWith pat (c :: (as ++ pat ++ (v ++ '"' :: b))) = true
    · rw [if_pos hP]
      cases hq2 : quotedAt ((c :: (as ++ pat ++ (v ++ '"' :: b))).drop pat.length) with
      | some r => simp
      | none => exact ih b
    · rw [if_neg hP]
      exact ih b

theorem hasQuotedVal_iff_searchQuoted (pat s : List Char) :
    HasQuotedVal pat s ↔ (searchQuoted pat s).isSome = true := by
  constructor
  · rintro ⟨a, v, b, rfl, hv, hq⟩
    exact searchQuoted_isSome_of pat v hv hq a b
  · intro h
    rcases hr : searchQuoted pat s with - | r
    · rw [hr] at h
      simp at h
    · obtain ⟨a, b, hab, hne, hmem⟩ := searchQuoted_some_decomp pat s r hr
      exact ⟨a, r, b, hab, hne, hmem⟩

theorem chanOfLine_eq_some (l : String) (c : Channel) (h : chanOfLine l = some c) :
    listStartsWith "#EXTINF".data (stripChars l.data) = true ∧
    ∃ idv, searchQuoted idPat (stripChars l.data) = some idv ∧
      c.id = pyStrip (String.mk idv) ∧
      c.name = (match afterFirstComma (stripChars l.data) with
        | some t => pyStrip (String.mk t)
        | none => "Unknown") := by
  simp only [chanOfLine] at h
  by_cases hP : listStartsWith "#EXTINF".data (stripChars l.data) = true
  · rw [if_pos hP] at h
    refine ⟨hP, ?_⟩
    cases hq : searchQuoted idPat (stripChars l.data) with
    | none =>
      rw [hq] at h
      simp at h
    | some idv =>
      rw [hq] at h
      injection h with h
      exact ⟨idv, rfl, by rw [← h], by rw [← h]⟩
  · rw [if_neg hP] at h
    simp at h

theorem chanOfLine_isSome_iff (l : String) :
    (chanOfLine l).isSome = true ↔ ContainsIdentifier l := by
  unfold ContainsIdentifier
  rw [hasQuotedVal_iff_searchQuoted]
  simp only [chanOfLine]
  by_cases hP : listStartsWith "#EXTINF".data (stripChars l.data) = true
  · simp only [hP, if_true, true_and]
    cases hq : searchQuoted idPat (stripChars l.data) with
    | none => simp
    | some idv => simp
  · simp [hP]

theorem afterFirstComma_some : ∀ l t : List Char, afterFirstComma l = some t →
    ∃ pre, l = pre ++ ',' :: t ∧ ',' ∉ pre := by
  intro l
  induction l with
  | nil => intro t h; simp [afterFirstComma] at h
  | cons c cs ih =>
    intro t h
    rw [afterFirstComma] at h
    by_cases hc : c = ','
    · rw [if_pos hc] at h
      injection h with h
      subst h
      subst hc
      exact ⟨[], rfl, by simp⟩
    · rw [if_neg hc] at h
      obtain ⟨pre, hp, hm⟩ := ih t h
      refine ⟨c :: pre, by rw [List.cons_append, hp], ?_⟩
      intro hmem
      rcases List.mem_cons.mp hmem with hcc | hcc
      · exact hc hcc.symm
      · exact hm hcc

theorem afterFirstComma_none : ∀ l : List Char, afterFirstComma l = none → ',' ∉ l := by
  intro l
  induction l with
  | nil => intro h hmem; simp at hmem
  | cons c cs ih =>
    intro h
    rw [afterFirstComma] at h
    by_cases hc : c = ','
    · rw [if_pos hc] at h
      simp at h
    · rw [if_neg hc] at h
      intro hmem
      rcases List.mem_cons.mp hmem with hcc | hcc
      · exact hc hcc.symm
      · exact ih h hcc

/-! ## Claims about the source loader -/

/-- C6: the loader is a line-by-line `filterMap`, so the output order is the
line order; a line yields a channel exactly when it is an entry line
carrying a `tvg-id` attribute; and the channel produced from such a line
takes as its identifier (the strip of) a quoted `tvg-id` value occurring in
the line. -/
theorem C6_loader (lines : List String) :
    parse_m3u true lines = lines.filterMap chanOfLine ∧
    (∀ l, (chanOfLine l).isSome = true ↔ ContainsIdentifier l) ∧
    (∀ l c, chanOfLine l = some c → ∃ a v b,
      stripChars l.data = a ++ idPat ++ (v ++ '"' :: b) ∧ v ≠ [] ∧ '"' ∉ v ∧
      c.id = pyStrip (String.mk v)) := by
  refine ⟨rfl, chanOfLine_isSome_iff, ?_⟩
  intro l c h
  obtain ⟨-, idv, hq, hid, -⟩ := chanOfLine_eq_some l c h
  obtain ⟨a, b, hab, hne, hmem⟩ := searchQuoted_some_decomp idPat _ idv hq
  exact ⟨a, idv, b, hab, hne, hmem, hid⟩

/-- C6, witness: the concrete line `wLine` yields exactly the channel with
identifier `101`. -/
theorem C6_loader_witness :
    ∃ a v b, stripChars wLine.data = a ++ idPat ++ (v ++ '"' :: b) ∧ v ≠ [] ∧ '"' ∉ v ∧
      wChannel.id = pyStrip (String.mk v) :=
  (C6_loader [wLine]).2.2 wLine wChannel (by decide)

/-- C4, corrected: the display name is the (stripped) text following the
FIRST comma of the stripped line — everything after it, later commas
included — and `Unknown` when the line has no comma; it is not the text
following the last comma. -/
theorem C4_display_name (line : String) (c : Channel) (h : chanOfLine line = some c) :
    (',' ∈ stripChars line.data →
      ∃ pre suf, stripChars line.data = pre ++ ',' :: suf ∧ ',' ∉ pre ∧
        c.name = pyStrip (String.mk suf)) ∧
    (',' ∉ stripChars line.data → c.name = "Unknown") := by
  obtain ⟨-, idv, -, -, hname⟩ := chanOfLine_eq_some line c h
  constructor
  · intro hmem
    cases hA : afterFirstComma (stripChars line.data) with
    | none => exact absurd hmem (afterFirstComma_none _ hA)
    | some t =>
      rw [hA] at hname
      obtain ⟨pre, hp, hnp⟩ := afterFirstComma_some _ t hA
      exact ⟨pre, t, hp, hnp, hname⟩
  · intro hnmem
    cases hA : afterFirstComma (stripChars line.data) with
    | some t =>
      obtain ⟨pre, hp, -⟩ := afterFirstComma_some _ t hA
      refine absurd ?_ hnmem
      rw [hp]
      simp
    | none =>
      rw [hA] at hname
      exact hname

/-- C4, counterexample: on a line whose name text contains a comma, the
loader keeps everything after the first comma (`"Hello, World"`), while
the text after the last delimiter — what the claim describes — is
`"World"`. -/
theorem C4_counterexample :
    chanOfLine wLine4 = some ⟨"1", "Hello, World", ""⟩ ∧
    nameAfterLastComma wLine4 = "World" ∧
    (chanOfLine wLine4).map Channel.name ≠ some (nameAfterLastComma wLine4) := by
  refine ⟨by decide, by decide, by decide⟩

/-- C4, witness: the first-comma extraction at the concrete line `wLine4`. -/
theorem C4_display_name_witness :
    ∃ pre suf, stripChars wLine4.data = pre ++ ',' :: suf ∧ ',' ∉ pre ∧
      "Hello, World" = pyStrip (String.mk suf) :=
  (C4_display_name wLine4 ⟨"1", "Hello, World", ""⟩ (by decide)).1 (by decide)

/-! ## Helper lemmas about the document builder and main -/

theorem buildProgrammes_eq (cid : String) : ∀ es : List EpgEntry,
    buildProgrammes cid es =
      (es.filter (fun p => p.startEpoch.isSome && p.endEpoch.isSome)).map
        (fun p => mkProgramme cid p (p.startEpoch.getD 0) (p.endEpoch.getD 0)) := by
  intro es
  induction es with
  | nil => rfl
  | cons p t ih =>
    simp only [buildProgrammes, List.filterMap_cons, List.filter_cons] at ih ⊢
    cases hs : p.startEpoch with
    | none => simp [progOfEntry, hs, ih]
    | some s =>
      cases he : p.endEpoch with
      | none => simp [progOfEntry, hs, he, ih]
      | some e => simp [progOfEntry, hs, he, ih]

theorem taskResult_fst (R : String → Nat → Nat → Response) (t : String × Nat)
    (r : String × List EpgEntry) (h : taskResult R t = some r) : r.1 = t.1 := by
  unfold taskResult at h
  split at h
  · simp at h
  · split at h
    · simp at h
    · injection h with h
      rw [← h]

theorem mem_buildProgrammes (cid : String) (es : List EpgEntry) (q : Programme)
    (h : q ∈ buildProgrammes cid es) : q.channel = cid := by
  simp only [buildProgrammes, List.mem_filterMap] at h
  obtain ⟨p, -, hp⟩ := h
  unfold progOfEntry at hp
  cases hs : p.startEpoch with
  | none =>
    rw [hs] at hp
    simp at hp
  | some s =>
    cases he : p.endEpoch with
    | none =>
      rw [hs, he] at hp
      simp at hp
    | some e =>
      rw [hs, he] at hp
      injection hp with hp
      rw [← hp]
      rfl

theorem mem_tasks (chs : List Channel) (t : String × Nat) (h : t ∈ tasks chs) :
    ∃ c ∈ chs, t.1 = c.id := by
  simp only [tasks, List.mem_flatten, List.mem_map] at h
  obtain ⟨l, ⟨off, -, rfl⟩, hts⟩ := h
  obtain ⟨c, hc, rfl⟩ := List.mem_map.mp hts
  exact ⟨c, hc, rfl⟩

theorem mem_progNodes (R : String → Nat → Nat → Response) (order : List (String × Nat))
    (n : XmlNode) (h : n ∈ progNodes R order) :
    ∃ t ∈ order, ∃ r, taskResult R t = some r ∧
      ∃ q ∈ buildProgrammes r.1 r.2, n = XmlNode.programmeEl q := by
  simp only [progNodes, List.mem_flatten, List.mem_map, List.mem_filterMap] at h
  obtain ⟨l, ⟨r, ⟨t, ht, htr⟩, rfl⟩, hn⟩ := h
  obtain ⟨q, hq, rfl⟩ := List.mem_map.mp hn
  exact ⟨t, ht, r, htr, q, hq, rfl⟩

theorem runMain_some (fe : Bool) (lines : List String)
    (R : String → Nat → Nat → Response) (order : List (String × Nat))
    (out : List XmlNode) (h : runMain fe lines R order = some out) :
    (parse_m3u fe lines).isEmpty = false ∧
    out = (parse_m3u fe lines).map XmlNode.channelEl ++ progNodes R order := by
  simp only [runMain] at h
  by_cases hE : (parse_m3u fe lines).isEmpty = true
  · rw [if_pos hE] at h
    simp at h
  · rw [if_neg hE] at h
    injection h with h
    exact ⟨by simpa using hE, h.symm⟩

/-! ## Claims about the builder and the pipeline -/

/-- C2: the builder is exactly one programme element per entry whose two
epoch fields parse, with `start`/`stop` formatted by the embedded
`strftime("%Y%m%d%H%M%S +0530")`; entries missing either epoch are silently
dropped; and the concrete timestamp 1700000000000 ms renders as
`20231115034320 +0530`. -/
theorem C2_programme_per_entry (cid : String) (entries : List EpgEntry) :
    buildProgrammes cid entries =
      (entries.filter (fun p => p.startEpoch.isSome && p.endEpoch.isSome)).map
        (fun p => mkProgramme cid p (p.startEpoch.getD 0) (p.endEpoch.getD 0)) ∧
    (∀ p : EpgEntry, ∀ s e : Int, p.startEpoch = some s → p.endEpoch = some e →
      progOfEntry cid p = some (mkProgramme cid p s e) ∧
      (mkProgramme cid p s e).start = formatEpochMs s ∧
      (mkProgramme cid p s e).stop = formatEpochMs e) ∧
    (∀ p : EpgEntry, p.startEpoch = none ∨ p.endEpoch = none →
      progOfEntry cid p = none) ∧
    formatEpochMs 1700000000000 = "20231115034320 +0530" := by
  refine ⟨buildProgrammes_eq cid entries, ?_, ?_, by decide⟩
  · intro p s e hs he
    refine ⟨?_, rfl, rfl⟩
    unfold progOfEntry
    rw [hs, he]
  · intro p h
    unfold progOfEntry
    rcases h with h | h
    · rw [h]
    · cases hs : p.startEpoch <;> rw [h]

/-- C2, witness: the builder at the concrete entry `wEntry`. -/
theorem C2_programme_per_entry_witness :
    progOfEntry "101" wEntry = some (mkProgramme "101" wEntry 1700000000000 1700001800000) ∧
    (mkProgramme "101" wEntry 1700000000000 1700001800000).start =
      formatEpochMs 1700000000000 ∧
    (mkProgramme "101" wEntry 1700000000000 1700001800000).stop =
      formatEpochMs 1700001800000 :=
  (C2_programme_per_entry "101" []).2.1 wEntry 1700000000000 1700001800000 rfl rfl

/-- C5, corrected: a missing playlist file aborts the run with no output
file, for every oracle and completion order (so before any network
activity); when the file exists and at least one channel is loaded, the run
always writes an output document, whatever the per-task outcomes.  (When
the file exists but no channel is loaded the run also aborts — the
counterexample — so "in every other case" needs that carve-out.) -/
theorem C5_output (lines : List String) (R : String → Nat → Nat → Response)
    (order : List (String × Nat)) :
    runMain false lines R order = none ∧
    (parse_m3u true lines ≠ [] →
      runMain true lines R order =
        some ((parse_m3u true lines).map XmlNode.channelEl ++ progNodes R order)) := by
  constructor
  · simp [runMain, parse_m3u]
  · intro h
    have hE : (parse_m3u true lines).isEmpty = false := by
      cases hE2 : (parse_m3u true lines).isEmpty
      · rfl
      · exact absurd (List.isEmpty_iff.mp hE2) h
    simp [runMain, hE]

/-- C5, counterexample: the playlist file exists (with only the `#EXTM3U`
header, hence no channels), yet the run writes no output file — against
the claim's "in every other case ... still writes an output file". -/
theorem C5_counterexample :
    runMain true ["#EXTM3U"] (fun _ _ _ => Response.exc) [] = none := by decide

/-- C5, witness: the two branches at a concrete playlist. -/
theorem C5_output_witness :
    runMain false [wLine] wRexc [] = none ∧
    runMain true [wLine] wRexc [] =
      some ((parse_m3u true [wLine]).map XmlNode.channelEl ++ progNodes wRexc []) :=
  ⟨(C5_output [wLine] wRexc []).1, (C5_output [wLine] wRexc []).2 (by decide)⟩

/-- C10: when the file exists but no line carries a channel identifier, no
channel is loaded and `main` returns before any fetch, writing no output —
the same outcome as the missing-file case, for every oracle and order. -/
theorem C10_no_identifier_abort (lines : List String)
    (R : String → Nat → Nat → Response) (order : List (String × Nat))
    (h : ∀ l ∈ lines, ¬ ContainsIdentifier l) :
    runMain true lines R order = none ∧
    runMain true lines R order = runMain false lines R order := by
  have hnone : ∀ l ∈ lines, chanOfLine l = none := by
    intro l hl
    cases hc : chanOfLine l with
    | none => rfl
    | some c =>
      exact absurd ((chanOfLine_isSome_iff l).mp (by rw [hc]; rfl)) (h l hl)
  have hnil : parse_m3u true lines = [] := by
    show lines.filterMap chanOfLine = []
    rw [List.filterMap_eq_nil_iff]
    exact hnone
  have h1 : runMain true lines R order = none := by simp [runMain, hnil]
  have h2 : runMain false lines R order = none := by simp [runMain, parse_m3u]
  exact ⟨h1, h1.trans h2.symm⟩

/-- C10, witness: a playlist with a header and a URL line but no
identifier aborts with no output. -/
theorem C10_no_identifier_abort_witness :
    runMain true ["#EXTM3U", "http://example.invalid/stream"] wRexc [] = none :=
  (C10_no_identifier_abort ["#EXTM3U", "http://example.invalid/stream"] wRexc []
    (by
      intro l hl hC
      have h1 := (chanOfLine_isSome_iff l).mpr hC
      rcases List.mem_cons.mp hl with rfl | hl2
      · exact absurd h1 (by decide)
      · rcases List.mem_cons.mp hl2 with rfl | hl3
        · exact absurd h1 (by decide)
        · simp at hl3)).1

/-- C7: every programme node of the output references a loaded channel,
whatever the payloads contain — the builder stamps each programme with the
`cid` of the task that fetched it, never with anything read from the
payload (whose `channelMention` field is ignored), and every task's `cid`
is a loaded channel's id. -/
theorem C7_programme_channel (lines : List String)
    (R : String → Nat → Nat → Response) (order : List (String × Nat))
    (out : List XmlNode)
    (horder : ∀ t ∈ order, t ∈ tasks (parse_m3u true lines))
    (hout : runMain true lines R order = some out) :
    ∀ q : Programme, XmlNode.programmeEl q ∈ out →
      ∃ c ∈ parse_m3u true lines, q.channel = c.id := by
  intro q hq
  obtain ⟨-, hEq⟩ := runMain_some true lines R order out hout
  rw [hEq] at hq
  rcases List.mem_append.mp hq with hq | hq
  · obtain ⟨c, -, hcq⟩ := List.mem_map.mp hq
    exact absurd hcq (by simp)
  · obtain ⟨t, ht, r, htr, q2, hq2, hEq2⟩ := mem_progNodes R order _ hq
    injection hEq2 with hEq2
    obtain ⟨c, hc, htc⟩ := mem_tasks (parse_m3u true lines) t (horder t ht)
    refine ⟨c, hc, ?_⟩
    rw [hEq2, mem_buildProgrammes r.1 r.2 q2 hq2, taskResult_fst R t r htr, htc]

/-- C7, witness: in the concrete run over `wLine` the emitted programme
references the loaded channel `101`. -/
theorem C7_programme_channel_witness :
    ∃ c ∈ parse_m3u true [wLine], wProg.channel = c.id :=
  C7_programme_channel [wLine] wR wOrder wOut (by decide) (by decide) wProg (by decide)

/-- C8: over the same playlist, any two runs — different oracles, different
completion orders — produce the same channel-element sequence, in playlist
order, as a prefix of the document; everything after that prefix is
programme elements. -/
theorem C8_channel_order (lines : List String)
    (R1 R2 : String → Nat → Nat → Response) (o1 o2 : List (String × Nat))
    (out1 out2 : List XmlNode)
    (h1 : runMain true lines R1 o1 = some out1)
    (h2 : runMain true lines R2 o2 = some out2) :
    ∃ progs1 progs2,
      out1 = (parse_m3u true lines).map XmlNode.channelEl ++ progs1 ∧
      out2 = (parse_m3u true lines).map XmlNode.channelEl ++ progs2 ∧
      (∀ n ∈ progs1, ∃ q, n = XmlNode.programmeEl q) ∧
      (∀ n ∈ progs2, ∃ q, n = XmlNode.programmeEl q) := by
  obtain ⟨-, hEq1⟩ := runMain_some true lines R1 o1 out1 h1
  obtain ⟨-, hEq2⟩ := runMain_some true lines R2 o2 out2 h2
  refine ⟨progNodes R1 o1, progNodes R2 o2, hEq1, hEq2, ?_, ?_⟩
  · intro n hn
    obtain ⟨-, -, -, -, q, -, hq⟩ := mem_progNodes R1 o1 n hn
    exact ⟨q, hq⟩
  · intro n hn
    obtain ⟨-, -, -, -, q, -, hq⟩ := mem_progNodes R2 o2 n hn
    exact ⟨q, hq⟩

/-- C8, witness: the channel prefix of two concrete runs with different
oracles and orders. -/
theorem C8_channel_order_witness :
    ∃ progs1 progs2,
      wOut = (parse_m3u true [wLine]).map XmlNode.channelEl ++ progs1 ∧
      wOut2 = (parse_m3u true [wLine]).map XmlNode.channelEl ++ progs2 ∧
      (∀ n ∈ progs1, ∃ q, n = XmlNode.programmeEl q) ∧
      (∀ n ∈ progs2, ∃ q, n = XmlNode.programmeEl q) :=
  C8_channel_order [wLine] wR wRexc wOrder [] wOut wOut2 (by decide) (by decide)

end JioTV
